import Mathlib

/-!
Verification of the frozenboot ext4 extent-tree reader and partition dispatch.

The definitions below are a shallow embedding of `src/fs/ext4/extent.rs` and
`src/fs/partitions/mod.rs`.  Machine integers are modelled as `Nat` with
explicit `% 2^w` where the source can overflow; byte buffers are `List Nat`
(each element a `u8` value); fallible operations return `Option`.  Boundary
components whose sources are not part of the repository snapshot
(superblock, inode, `crc32c_calc`, the MBR entry type table) are modelled
from the specification and marked as such in their doc comments.
-/

namespace FrozenBoot

/-! ## Byte-level helpers (little-endian, as `bytemuck::from_bytes` on x86) -/

/-- Little-endian `u16` read at offset `off` (out-of-range bytes read as 0). -/
def parseU16 (l : List Nat) (off : Nat) : Nat :=
  l.getD off 0 + 256 * l.getD (off + 1) 0

/-- Little-endian `u32` read at offset `off` (out-of-range bytes read as 0). -/
def parseU32 (l : List Nat) (off : Nat) : Nat :=
  l.getD off 0 + 256 * l.getD (off + 1) 0 + 65536 * l.getD (off + 2) 0 +
    16777216 * l.getD (off + 3) 0

/-- Little-endian 4-byte encoding of a `u32` value (`bytes_of` on x86). -/
def toLE4 (x : Nat) : List Nat :=
  [x % 256, x / 256 % 256, x / 65536 % 256, x / 16777216 % 256]

/-- Every element of the list is a valid byte value. -/
def BytesWF (l : List Nat) : Prop := ∀ b ∈ l, b < 256

instance (l : List Nat) : Decidable (BytesWF l) := by
  unfold BytesWF; infer_instance

/-! ## CRC32C

`crc32c_calc` lives in `src/fs/ext4/mod.rs`, which is not part of the
source snapshot; only its callers are. -/

/-- Modelled from the spec: one reflected step of the CRC32C (Castagnoli)
polynomial `0x82F63B78` (spec §4.2 and glossary: "CRC32C — Castagnoli
polynomial 32-bit cyclic redundancy check used by ext4"). -/
def crc32cRound (x : Nat) : Nat :=
  if x % 2 = 1 then Nat.xor (x / 2) 0x82F63B78 else x / 2

/-- Modelled from the spec: folding one input byte into the CRC32C state. -/
def crc32cByte (crc b : Nat) : Nat :=
  (List.range 8).foldl (fun c _ => crc32cRound c) (Nat.xor crc (b % 256))

/-- Modelled from the spec: `crc32c_calc` over a byte slice — CRC32C
(Castagnoli), reflected, initial value and final xor `0xFFFFFFFF`. -/
def crc32c_calc (data : List Nat) : Nat :=
  Nat.xor (data.foldl crc32cByte 0xFFFFFFFF) 0xFFFFFFFF

/-! ## On-disk record shapes (`extent.rs`) -/

/-- `Extent` — leaf node of the extent tree (`repr C`: `block : u32`,
`len : u16`, `start_hi : u16`, `start_lo : u32`; 12 bytes). -/
structure Extent where
  block : Nat
  len : Nat
  start_hi : Nat
  start_lo : Nat
deriving DecidableEq

/-- Field ranges of the machine-integer fields of an `Extent`. -/
def Extent.wf (e : Extent) : Prop :=
  e.block < 2 ^ 32 ∧ e.len < 2 ^ 16 ∧ e.start_hi < 2 ^ 16 ∧ e.start_lo < 2 ^ 32

instance (e : Extent) : Decidable e.wf := by unfold Extent.wf; infer_instance

/-- `impl Add<Ext4ExtentLength> for Ext4ExtentInitialBlock`: plain `u32`
addition `self.0 + u32::from(rhs.0)` (wraps at `2^32` in release builds). -/
def Ext4ExtentInitialBlock_add_len (block len : Nat) : Nat :=
  (block + len) % 2 ^ 32

/-- `Extent::start_blk`: `u64::from(start_lo) | (u64::from(start_hi) << 32)`. -/
def Extent.start_blk (e : Extent) : Nat :=
  e.start_lo ||| (e.start_hi <<< 32)

/-- `Extent::contains`: `self.block <= blk_id && self.block + self.len >= blk_id`
(the upper bound is inclusive, and uses the raw length field). -/
def Extent.contains (e : Extent) (blk_id : Nat) : Bool :=
  decide (e.block ≤ blk_id) &&
    decide (blk_id ≤ Ext4ExtentInitialBlock_add_len e.block e.len)

/-- `Ext4ExtentLength::is_initialized`: `self.0 <= 32768`. -/
def Ext4ExtentLength_is_init (len : Nat) : Bool := decide (len ≤ 32768)

/-- `Ext4ExtentLength::length`: raw value if initialized, else `raw - 32768`. -/
def Ext4ExtentLength_length (len : Nat) : Nat :=
  if len ≤ 32768 then len else len - 32768

/-- `ExtentHeader` — 12-byte packed header preceding every extent node. -/
structure ExtentHeader where
  magic : Nat
  entries : Nat
  max : Nat
  depth : Nat
  generation : Nat
deriving DecidableEq

/-- `ExtentBlock::get_header`: reinterpret the first 12 bytes of the block
(packed little-endian fields, no validation whatsoever). -/
def get_header (blk : List Nat) : ExtentHeader :=
  { magic := parseU16 blk 0
    entries := parseU16 blk 2
    max := parseU16 blk 4
    depth := parseU16 blk 6
    generation := parseU32 blk 8 }

/-- `ExtentHeader::is_leaf`: depth equals `LEAF_DEPTH = 0`. -/
def ExtentHeader.is_leaf (h : ExtentHeader) : Bool := decide (h.depth = 0)

/-- `ExtentHeader::load`: parse a header from raw bytes and return it only
when the magic equals `0xF30A` (the depth field is not checked). -/
def ExtentHeader.load (h_bytes : List Nat) : Option ExtentHeader :=
  let header := get_header h_bytes
  if header.magic = 0xF30A then some header else none

/-- `Ext4ExtentHeaderDepth::set_depth`: reject a new depth above 5. -/
def Ext4ExtentHeaderDepth_set_depth (new_depth : Nat) : Option Nat :=
  if 5 < new_depth then none else some new_depth

/-- `ExtentBlock::get_entry_bytes`: `None` when `entry >= header.entries`,
otherwise the 12-byte slice at offset
`size_of::<ExtentHeader>() + entry * size_of::<Extent>()` = `12 + 12·entry`.
When the block is shorter than its declared entries the source's slice
indexing panics; the `take`/`drop` below is that 12-byte slice only under
the in-bounds precondition `12 + 12 * entries ≤ length`, which theorems
about the in-range branch therefore carry explicitly. -/
def get_entry_bytes (blk : List Nat) (entry : Nat) : Option (List Nat) :=
  if (get_header blk).entries ≤ entry then none
  else some ((blk.drop (12 + 12 * entry)).take 12)

/-- `ExtentBlkRawEntry::as_extent`: reinterpret 12 bytes as an `Extent`
(`repr C` offsets 0/4/6/8). -/
def as_extent (b : List Nat) : Extent :=
  { block := parseU32 b 0, len := parseU16 b 4, start_hi := parseU16 b 6,
    start_lo := parseU32 b 8 }

/-- `ExtentIdx` — interior (index) node record. -/
structure ExtentIdx where
  block : Nat
  leaf_lo : Nat
  leaf_hi : Nat
deriving DecidableEq

/-- `ExtentBlkRawEntry::as_extent_idx`: reinterpret 12 bytes as an
`ExtentIdx` (`repr C` offsets 0/4/8, 2 trailing bytes unused). -/
def as_extent_idx (b : List Nat) : ExtentIdx :=
  { block := parseU32 b 0, leaf_lo := parseU32 b 4, leaf_hi := parseU16 b 8 }

/-- `ExtentIdx::leaf`: `u64::from(leaf_lo) | (u64::from(leaf_hi) << 32)`. -/
def ExtentIdx.leaf (idx : ExtentIdx) : Nat :=
  idx.leaf_lo ||| (idx.leaf_hi <<< 32)

/-- `ExtentBlock::validate_chksum`: compare the `u32` stored in the final
4 bytes of the block against
`crc32c_calc(uuid_bytes ++ inode_id_le ++ inode_gen_le ++ body)` where
`body` is every block byte except the last 4.  Returns the comparison
outcome together with the number of error-log lines emitted (`error!` fires
exactly once on mismatch). -/
def validate_chksum (blk uuid : List Nat) (inode_id inode_gen : Nat) :
    Bool × Nat :=
  let on_disk := parseU32 (blk.drop (blk.length - 4)) 0
  let chksum_bytes := uuid ++ toLE4 inode_id ++ toLE4 inode_gen ++
    blk.take (blk.length - 4)
  let comp := crc32c_calc chksum_bytes
  if comp = on_disk then (true, 0) else (false, 1)

/-! ## Filesystem / inode boundary

`Ext4Fs`, the superblock and the inode live in modules that are not part of
the source snapshot; the fields below are the boundary the extent code
consumes (spec §4.5 and §6). -/

/-- Modelled from the spec: the slice of an `Ext4Fs` visible to the extent
reader — the 16-byte filesystem UUID, the extents incompatible-feature bit,
and the `BlockDevice` read (`read_blk_from_device`), a partial map from
physical block id to block bytes (`none` = failed read). -/
structure Ext4Fs where
  uuid : List Nat
  feature_incompat_extents : Bool
  disk : Nat → Option (List Nat)

/-- Modelled from the spec: the slice of an `Inode` visible to the extent
reader — number, generation, the "uses extent tree" flag and the 60 inline
`i_block` bytes (`as_extent_block` exposes them unchanged). -/
structure Inode where
  number : Nat
  generation : Nat
  uses_extents : Bool
  i_block : List Nat

/-! ## Extent-tree traversal and loading (`traverse_extent_layer`,
`ExtentTree::load_extent_tree`) -/

/-- One iteration of the leaf loop of `traverse_extent_layer`: push the
parsed extent; a `None` from `get_entry_bytes` aborts via `?`, keeping the
extents pushed so far (the vector is shared mutable state).  A `false` flag
makes the step a no-op, modelling the early `return` of the source. -/
def leaf_step (blk : List Nat) (st : List Extent × Bool) (entry : Nat) :
    List Extent × Bool :=
  if st.2 then
    match get_entry_bytes blk entry with
    | none => (st.1, false)
    | some eb => (st.1 ++ [as_extent eb], true)
  else st

/-- One iteration of the interior loop of `traverse_extent_layer`: parse the
index entry, read the child block (`.ok()?` turns a device error into an
early return that keeps the extents pushed so far), then recurse.  The
source ignores both the checksum verdict and the recursive call's result,
so the success flag stays `true` after a recursion. -/
def idx_step (fs : Ext4Fs)
    (trav : List Nat → List Extent → List Extent × Bool)
    (blk : List Nat) (st : List Extent × Bool) (entry : Nat) :
    List Extent × Bool :=
  if st.2 then
    match get_entry_bytes blk entry with
    | none => (st.1, false)
    | some eb =>
      match fs.disk (as_extent_idx eb).leaf with
      | none => (st.1, false)
      | some data => ((trav data st.1).1, true)
  else st

/-- `traverse_extent_layer`: depth-first walk pushing every leaf extent met.
The boolean is the `Option<()>` result of the source; `fuel` bounds the
recursion depth (the source recursion is unbounded — a cyclic disk image
diverges there; every claim quantifies over, or instantiates, the fuel). -/
def traverse_extent_layer (fs : Ext4Fs) (inode : Inode) :
    Nat → List Nat → List Extent → List Extent × Bool
  | 0, _, extents => (extents, false)
  | fuel + 1, blk, extents =>
    let header := get_header blk
    if header.is_leaf then
      (List.range header.entries).foldl (leaf_step blk) (extents, true)
    else
      (List.range header.entries).foldl
        (idx_step fs (traverse_extent_layer fs inode fuel) blk)
        (extents, true)

/-- The derived lexicographic `Ord` on `Extent` (field order:
`block`, `len`, `start_hi`, `start_lo`), as used by `sort_unstable`. -/
def extLe (a b : Extent) : Prop :=
  a.block < b.block ∨ (a.block = b.block ∧ (a.len < b.len ∨ (a.len = b.len ∧
    (a.start_hi < b.start_hi ∨ (a.start_hi = b.start_hi ∧
      a.start_lo ≤ b.start_lo)))))

instance : DecidableRel extLe := fun a b => by unfold extLe; infer_instance

instance : IsTotal Extent extLe := ⟨by intro a b; unfold extLe; omega⟩

instance : IsTrans Extent extLe := ⟨by intro a b c; unfold extLe; omega⟩

/-- `ExtentTree` — the in-memory extent list (the inode back-reference
carries no information used by the operations modelled here). -/
structure ExtentTree where
  extents : List Extent
deriving DecidableEq

/-- `ExtentTree::load_extent_tree`: bail out with `None` when the extents
feature or the inode's extent flag is missing; otherwise traverse from the
inline block, sort (`sort_unstable` by the derived `Ord`; modelled by
insertion sort, extensionally equal because the order is total and
antisymmetric), and return the tree.  The traversal's `Option` result is
discarded by the source, so the tree is returned even after a failed child
read. -/
def load_extent_tree (fs : Ext4Fs) (inode : Inode) (fuel : Nat) :
    Option ExtentTree :=
  if !fs.feature_incompat_extents || !inode.uses_extents then none
  else
    some ⟨List.insertionSort extLe
      (traverse_extent_layer fs inode fuel inode.i_block []).1⟩

/-! ## Lookup (`ExtentTree::get_exact_blk_mapping`) -/

/-- Core loop of Rust `slice::binary_search_by` (invariant `size = right -
left`, probe `mid = left + size / 2`); `Err` is collapsed to `none` as the
caller applies `.ok()?`.  `fuel` dominates the iteration count; the wrapper
passes `n + 1`, which lemma `binarySearchGo_fuel` shows is enough. -/
def binarySearchGo (c : Nat → Ordering) : Nat → Nat → Nat → Option Nat
  | 0, _, _ => none
  | fuel + 1, left, right =>
    if left < right then
      match c (left + (right - left) / 2) with
      | .lt => binarySearchGo c fuel (left + (right - left) / 2 + 1) right
      | .gt => binarySearchGo c fuel left (left + (right - left) / 2)
      | .eq => some (left + (right - left) / 2)
    else none

/-- `slice::binary_search_by(...).ok()` over indices `0..n`. -/
def binary_search_by (c : Nat → Ordering) (n : Nat) : Option Nat :=
  binarySearchGo c (n + 1) 0 n

/-- Placeholder element for out-of-range indexing (never reached when the
search is called with `n = length`). -/
def defaultExtent : Extent := ⟨0, 0, 0, 0⟩

/-- The three-way comparator closure of `get_exact_blk_mapping`:
`Equal` when the extent contains the block, `Greater` when the extent
starts strictly above it, `Less` otherwise. -/
def extCmp (extents : List Extent) (blk_id : Nat) (i : Nat) : Ordering :=
  let e := extents.getD i defaultExtent
  if e.contains blk_id then .eq
  else if blk_id < e.block then .gt
  else .lt

/-- `impl Add<Ext4InodeRelBlkId> for Ext4RealBlkId`: plain `u64` addition
(wraps at `2^64` in release builds — not saturating). -/
def Ext4RealBlkId_add_rel (a b : Nat) : Nat := (a + b) % 2 ^ 64

/-- `ExtentTree::get_exact_blk_mapping`: binary-search the extent list with
`extCmp`; on a hit return `extent.start_blk() + (blk_id - extent.block)`. -/
def get_exact_blk_mapping (t : ExtentTree) (blk_id : Nat) : Option Nat :=
  match binary_search_by (extCmp t.extents blk_id) t.extents.length with
  | none => none
  | some i =>
    match t.extents.get? i with
    | none => none
    | some e => some (Ext4RealBlkId_add_rel e.start_blk (blk_id - e.block))

/-! ## The four `Add` impls on `Ext4RealBlkId` (for the saturation claim) -/

/-- Rust `u64::saturating_add`. -/
def u64_saturating_add (a b : Nat) : Nat :=
  if a + b < 2 ^ 64 then a + b else 2 ^ 64 - 1

/-- `impl Add<Ext4BlkCount> for Ext4RealBlkId`: `saturating_add`. -/
def Ext4RealBlkId_add_blk_count (a b : Nat) : Nat := u64_saturating_add a b

/-- `impl Add<u64> for Ext4RealBlkId`: `saturating_add`. -/
def Ext4RealBlkId_add_u64 (a b : Nat) : Nat := u64_saturating_add a b

/-- `impl Add<Ext4ExtentLength> for Ext4RealBlkId`: plain `u64` addition
`self.0 + u64::from(rhs.0)` (wraps at `2^64` in release builds). -/
def Ext4RealBlkId_add_extent_len (a b : Nat) : Nat := (a + b) % 2 ^ 64

/-! ## Partition dispatch (`partitions/mod.rs`) -/

/-- `PartFS` — filesystem attached to a partition. -/
inductive PartFS where
  | Unknown : PartFS
  | Ext4 : PartFS
deriving DecidableEq

/-- `mbr::PartitionType` — the closed MBR type classification. -/
inductive PartitionType where
  | Empty | DOSFat12 | XenixRoot | XenixUsr | DOS3Fat16 | Extended
  | DOS331Fat16 | OS2IFS | NTFS | Fat32 | Fat32LBA | EXFAT | DOSFat16LBA
  | ExtendedLBA | LinuxSwap | LinuxNative | LinuxExtended | LinuxLVM
  | BSDI | OpenBSD | MacOSX | MacOSXBoot | MacOSXHFS | LUKS | GPTProt
  | UnknownPT
deriving DecidableEq

/-- Modelled from the spec: the closed MBR type-byte table of spec §6
(mbr.rs is not part of the source snapshot).  Byte `0x07` is overloaded
(OS2IFS / NTFS / EXFAT share the discriminant, spec §9 question 2); the
first listed variant is used — all three dispatch arms behave identically
in `from_metadata`. -/
def mbrTypeTable : List (Nat × PartitionType) :=
  [(0x00, .Empty), (0x01, .DOSFat12), (0x02, .XenixRoot), (0x03, .XenixUsr),
   (0x04, .DOS3Fat16), (0x05, .Extended), (0x06, .DOS331Fat16),
   (0x07, .OS2IFS), (0x0B, .Fat32), (0x0C, .Fat32LBA), (0x0E, .DOSFat16LBA),
   (0x0F, .ExtendedLBA), (0x82, .LinuxSwap), (0x83, .LinuxNative),
   (0x85, .LinuxExtended), (0x8E, .LinuxLVM), (0x9F, .BSDI),
   (0xA6, .OpenBSD), (0xA8, .MacOSX), (0xAB, .MacOSXBoot),
   (0xAF, .MacOSXHFS), (0xE8, .LUKS), (0xEE, .GPTProt)]

/-- First match in an association table, defaulting to the unrecognized
variant. -/
def tableGet (b : Nat) : List (Nat × PartitionType) → PartitionType
  | [] => .UnknownPT
  | (k, v) :: rest => if b = k then v else tableGet b rest

/-- Modelled from the spec: `MBRPartitionEntry::partition_type` — match
the entry's type byte against the closed classification table. -/
def partition_type_of_byte (b : Nat) : PartitionType :=
  tableGet b mbrTypeTable

/-- The recognized (non-catch-all) MBR type bytes of the spec §6 table. -/
def mbrKnownBytes : List Nat := mbrTypeTable.map Prod.fst

/-- `PartitionMetadata` — the original table entry, reduced to the fields
`from_metadata` consumes (`partition_type()` input byte and `start_lba()`). -/
inductive PartitionMetadata where
  | mbr (type_byte : Nat) (start_lba : Nat) : PartitionMetadata
  | gpt (start_lba : Nat) : PartitionMetadata
deriving DecidableEq

/-- Outcome of `Partition::from_metadata`: `built fs` is `Some(Partition {
fs, .. })`, `failed` is the `?`-propagated `None` from `identify`/`mount`,
and `panicked` is a `todo!()` arm — the construction aborts. -/
inductive FMOutcome where
  | built (fs : PartFS) : FMOutcome
  | failed : FMOutcome
  | panicked : FMOutcome
deriving DecidableEq

/-- `Partition::from_metadata`, parametrised by the `Ext4Fs::identify` and
`Ext4Fs::mount` calls (their sources are outside the snapshot):
`identify drive_id lba` models `Ext4Fs::identify(..).ok()` and
`mount drive_id part_id lba` models `Ext4Fs::mount(..).ok()`. -/
def from_metadata (identify : Nat → Nat → Option Bool)
    (mount : Nat → Nat → Nat → Option Unit)
    (part_id drive_id : Nat) (metadata : PartitionMetadata) : FMOutcome :=
  match metadata with
  | .mbr type_byte lba =>
    match partition_type_of_byte type_byte with
    | .Empty => .built .Unknown
    | .LinuxNative =>
      match identify drive_id lba with
      | none => .failed
      | some true =>
        match mount drive_id part_id lba with
        | none => .failed
        | some _ => .built .Ext4
      | some false => .built .Unknown
    | .GPTProt => .built .Unknown
    | .UnknownPT => .built .Unknown
    | _ => .panicked
  | .gpt lba =>
    match identify drive_id lba with
    | none => .failed
    | some true =>
      match mount drive_id part_id lba with
      | none => .failed
      | some _ => .built .Ext4
    | some false => .built .Unknown

/-! ## Concrete disk images used to instantiate the claims -/

/-- Serialize a 12-byte leaf extent record (little-endian, `repr C`). -/
def extentBytes (block len hi lo : Nat) : List Nat :=
  toLE4 block ++ [len % 256, len / 256 % 256] ++ [hi % 256, hi / 256 % 256] ++
    toLE4 lo

/-- Serialize a 12-byte extent header (packed little-endian). -/
def headerBytes (magic entries mx depth gen : Nat) : List Nat :=
  [magic % 256, magic / 256 % 256, entries % 256, entries / 256 % 256,
   mx % 256, mx / 256 % 256, depth % 256, depth / 256 % 256] ++ toLE4 gen

/-- Serialize a 12-byte index record (little-endian, `repr C`). -/
def idxBytes (block leafLo leafHi : Nat) : List Nat :=
  toLE4 block ++ toLE4 leafLo ++ [leafHi % 256, leafHi / 256 % 256, 0, 0]

/-- A block device on which every read fails. -/
def emptyDisk : Nat → Option (List Nat) := fun _ => none

/-- An inode whose inline block is a single uninitialized extent
(raw length `32772`, effective length 4) mapped to physical block 2000. -/
def inodeC1a : Inode :=
  ⟨12, 0, true, headerBytes 0xF30A 1 4 0 0 ++ extentBytes 0 32772 0 2000⟩

/-- Same as `inodeC1a` with the extent mapped to physical block 3000. -/
def inodeC1b : Inode :=
  ⟨12, 0, true, headerBytes 0xF30A 1 4 0 0 ++ extentBytes 0 32772 0 3000⟩

def fsC1 : Ext4Fs := ⟨[], true, emptyDisk⟩

/-- A child leaf block: one extent covering logical `[0,4]` at physical
10000. -/
def childC2 : List Nat := headerBytes 0xF30A 1 4 0 0 ++ extentBytes 0 4 0 10000

/-- A device where only block 5000 is readable; reading 5001 fails. -/
def fsC2 : Ext4Fs :=
  ⟨[], true, fun n => if n = 5000 then some childC2 else none⟩

/-- An inode whose inline node is interior (`depth 1`) with two index
records pointing at blocks 5000 and 5001. -/
def inodeC2 : Inode :=
  ⟨12, 0, true, headerBytes 0xF30A 2 4 1 0 ++ idxBytes 0 5000 0 ++
    idxBytes 4 5001 0⟩

def fsC3 : Ext4Fs := ⟨[], true, emptyDisk⟩

/-- An inode carrying two overlapping initialized extents for the same
logical range `[0,2]`, mapped to physical 100 and 200. -/
def inodeC3 : Inode :=
  ⟨12, 0, true, headerBytes 0xF30A 2 4 0 0 ++ extentBytes 0 2 0 100 ++
    extentBytes 0 2 0 200⟩

def fsC3w : Ext4Fs := ⟨[], true, emptyDisk⟩

/-- Two disjoint initialized extents: `[0,2]→100` and `[4,6]→200`. -/
def inodeC3w : Inode :=
  ⟨12, 0, true, headerBytes 0xF30A 2 4 0 0 ++ extentBytes 0 2 0 100 ++
    extentBytes 4 2 0 200⟩

def fsC4 : Ext4Fs := ⟨[], true, emptyDisk⟩

/-- A single uninitialized extent (raw length `32772`, effective length 4)
starting at logical 0, physical 2000. -/
def inodeC4 : Inode :=
  ⟨12, 0, true, headerBytes 0xF30A 1 4 0 0 ++ extentBytes 0 32772 0 2000⟩

def fsC4w : Ext4Fs := ⟨[], true, emptyDisk⟩

/-- A single initialized extent `[0,2]→100`. -/
def inodeC4w : Inode :=
  ⟨12, 0, true, headerBytes 0xF30A 1 4 0 0 ++ extentBytes 0 2 0 100⟩

def fsC5 : Ext4Fs := ⟨[], true, emptyDisk⟩

/-- An inline node whose header magic is `0x1234` (invalid). -/
def inodeC5 : Inode :=
  ⟨12, 0, true, headerBytes 0x1234 1 4 0 0 ++ extentBytes 0 8 0 1000⟩

/-- A child leaf block (valid magic, depth 0) with one extent
`[0,8]→1000`, every access in bounds. -/
def childC5d : List Nat := headerBytes 0xF30A 1 4 0 0 ++ extentBytes 0 8 0 1000

/-- A device exposing only block 6000, holding `childC5d`. -/
def fsC5d : Ext4Fs :=
  ⟨[], true, fun n => if n = 6000 then some childC5d else none⟩

/-- An inline interior node declaring depth 7 (above the spec's bound of
5) with one index record pointing at block 6000; all accesses stay in
bounds. -/
def inodeC5d : Inode :=
  ⟨12, 0, true, headerBytes 0xF30A 1 4 7 0 ++ idxBytes 0 6000 0⟩

/-- A 5-byte extent block: body `[0xAB]` and an arbitrary 4-byte tail. -/
def blkC6 : List Nat := [0xAB, 1, 2, 3, 4]

def uuidC6 : List Nat := [0, 1, 2, 3, 4, 5, 6, 7, 8, 9, 10, 11, 12, 13, 14, 15]

def fsC7 : Ext4Fs := ⟨[], true, emptyDisk⟩

/-- Two initialized extents serialized out of order (`[4,6]→200` before
`[0,2]→100`); loading must sort them. -/
def inodeC7 : Inode :=
  ⟨12, 0, true, headerBytes 0xF30A 2 4 0 0 ++ extentBytes 4 2 0 200 ++
    extentBytes 0 2 0 100⟩

/-- A 24-byte leaf block holding exactly one extent record. -/
def blkC10 : List Nat := headerBytes 0xF30A 1 4 0 0 ++ extentBytes 0 8 0 1000

/-! ## General lemmas about the binary search -/

/-- Numeric rank of an `Ordering`, for stating comparator monotonicity. -/
def rankO : Ordering → Nat
  | .lt => 0
  | .eq => 1
  | .gt => 2

theorem binarySearchGo_sound (c : Nat → Ordering) :
    ∀ fuel left right i, binarySearchGo c fuel left right = some i →
      c i = Ordering.eq ∧ left ≤ i ∧ i < right := by
  intro fuel
  induction fuel with
  | zero => intro left right i h; simp [binarySearchGo] at h
  | succ m ih =>
    intro left right i h
    rw [binarySearchGo] at h
    split at h
    · split at h
      · have hs := ih _ _ _ h
        exact ⟨hs.1, by omega, hs.2.2⟩
      · have hs := ih _ _ _ h
        refine ⟨hs.1, hs.2.1, by omega⟩
      · next heq =>
          cases h
          exact ⟨heq, by omega, by omega⟩
    · cases h

theorem binarySearchGo_complete (c : Nat → Ordering) (n : Nat)
    (mono : ∀ i j, i ≤ j → j < n → rankO (c i) ≤ rankO (c j)) :
    ∀ fuel left right k, right ≤ n → right - left < fuel →
      left ≤ k → k < right → c k = Ordering.eq →
      ∃ i, binarySearchGo c fuel left right = some i := by
  intro fuel
  induction fuel with
  | zero => intro left right k _ h _ _ _; omega
  | succ m ih =>
    intro left right k hrn hfuel hlk hkr hceq
    have hlr : left < right := by omega
    have hmidlt : left + (right - left) / 2 < right := by omega
    rw [binarySearchGo, if_pos hlr]
    rcases hc : c (left + (right - left) / 2) with _ | _ | _
    · -- probe answered Less: the matching index lies strictly above the probe
      have hkmid : left + (right - left) / 2 < k := by
        by_contra hle
        have h1 := mono k (left + (right - left) / 2) (by omega) (by omega)
        rw [hceq, hc] at h1
        simp [rankO] at h1
      obtain ⟨i, hi⟩ :=
        ih (left + (right - left) / 2 + 1) right k (by omega) (by omega)
          (by omega) hkr hceq
      exact ⟨i, hi⟩
    · -- probe answered Equal
      exact ⟨left + (right - left) / 2, rfl⟩
    · -- probe answered Greater: the matching index lies strictly below
      have hkmid : k < left + (right - left) / 2 := by
        by_contra hle
        have h1 := mono (left + (right - left) / 2) k (by omega) (by omega)
        rw [hceq, hc] at h1
        simp [rankO] at h1
      obtain ⟨i, hi⟩ :=
        ih left (left + (right - left) / 2) k (by omega) (by omega) hlk hkmid
          hceq
      exact ⟨i, hi⟩

/-- With a monotone comparator that answers `Equal` at exactly one index,
`binary_search_by` returns that index. -/
theorem binary_search_finds (c : Nat → Ordering) (n k : Nat)
    (mono : ∀ i j, i ≤ j → j < n → rankO (c i) ≤ rankO (c j))
    (hk : k < n) (hceq : c k = Ordering.eq)
    (uniq : ∀ i, i < n → c i = Ordering.eq → i = k) :
    binary_search_by c n = some k := by
  obtain ⟨i, hi⟩ :=
    binarySearchGo_complete c n mono (n + 1) 0 n k (le_refl n) (by omega)
      (by omega) hk hceq
  have hs := binarySearchGo_sound c (n + 1) 0 n i hi
  have : i = k := uniq i hs.2.2 hs.1
  rw [binary_search_by, hi, this]

/-! ## Lemmas about the lookup comparator -/

theorem getD_eq_get (xs : List Extent) (i : Nat) (h : i < xs.length) :
    xs.getD i defaultExtent = xs.get ⟨i, h⟩ := by
  rw [List.getD_eq_get?, List.get?_eq_get h]
  rfl

theorem contains_iff (e : Extent) (b : Nat) (hb : e.block + e.len < 2 ^ 32) :
    e.contains b = true ↔ e.block ≤ b ∧ b ≤ e.block + e.len := by
  rw [Extent.contains, Ext4ExtentInitialBlock_add_len, Nat.mod_eq_of_lt hb]
  simp

theorem extCmp_eq_iff (xs : List Extent) (b i : Nat) (hi : i < xs.length) :
    extCmp xs b i = Ordering.eq ↔ (xs.get ⟨i, hi⟩).contains b = true := by
  rw [extCmp, getD_eq_get xs i hi]
  rcases hc : (xs.get ⟨i, hi⟩).contains b with _ | _ <;> simp [hc] <;>
    split <;> simp

theorem extCmp_mono (xs : List Extent) (b : Nat)
    (hbound : ∀ e ∈ xs, e.block + e.len < 2 ^ 32)
    (hpair : xs.Pairwise (fun a a' => a.block + a.len < a'.block)) :
    ∀ i j, i ≤ j → j < xs.length → rankO (extCmp xs b i) ≤ rankO (extCmp xs b j) := by
  intro i j hij hjn
  rcases Nat.eq_or_lt_of_le hij with rfl | hlt
  · exact le_refl _
  have hin : i < xs.length := lt_trans hlt hjn
  have hgap : (xs.get ⟨i, hin⟩).block + (xs.get ⟨i, hin⟩).len <
      (xs.get ⟨j, hjn⟩).block :=
    List.pairwise_iff_get.mp hpair ⟨i, hin⟩ ⟨j, hjn⟩ hlt
  have hbi := hbound _ (xs.get_mem i hin)
  have hbj := hbound _ (xs.get_mem j hjn)
  rw [extCmp, extCmp, getD_eq_get xs i hin, getD_eq_get xs j hjn]
  simp only [Extent.contains, Ext4ExtentInitialBlock_add_len,
    Nat.mod_eq_of_lt hbi, Nat.mod_eq_of_lt hbj, Bool.and_eq_true,
    decide_eq_true_eq]
  split_ifs <;> simp [rankO] <;> omega

theorem extCmp_eq_unique (xs : List Extent) (b : Nat)
    (hbound : ∀ e ∈ xs, e.block + e.len < 2 ^ 32)
    (hpair : xs.Pairwise (fun a a' => a.block + a.len < a'.block)) :
    ∀ i j, i < xs.length → j < xs.length →
      extCmp xs b i = Ordering.eq → extCmp xs b j = Ordering.eq → i = j := by
  have key : ∀ i j (hi : i < xs.length) (hj : j < xs.length), i < j →
      extCmp xs b i = Ordering.eq → extCmp xs b j = Ordering.eq → False := by
    intro i j hi hj hij hci hcj
    have h1 := (contains_iff _ _ (hbound _ (xs.get_mem i hi))).mp
      ((extCmp_eq_iff xs b i hi).mp hci)
    have h2 := (contains_iff _ _ (hbound _ (xs.get_mem j hj))).mp
      ((extCmp_eq_iff xs b j hj).mp hcj)
    have hgap := List.pairwise_iff_get.mp hpair ⟨i, hi⟩ ⟨j, hj⟩ hij
    omega
  intro i j hi hj hci hcj
  rcases Nat.lt_trichotomy i j with h | h | h
  · exact absurd (key i j hi hj h hci hcj) not_false
  · exact h
  · exact absurd (key j i hj hi h hcj hci) not_false

/-- Master lookup lemma: on a tree whose extents have non-wrapping `u32`
end blocks and are strictly separated (each extent ends, inclusively, below
the next extent's first block), looking up any block inside an extent's
inclusive covered range returns that extent's mapping. -/
theorem lookup_covered (t : ExtentTree) (E : Extent) (b : Nat)
    (hbound : ∀ e ∈ t.extents, e.block + e.len < 2 ^ 32)
    (hpair : t.extents.Pairwise (fun a a' => a.block + a.len < a'.block))
    (hE : E ∈ t.extents) (hlo : E.block ≤ b) (hhi : b ≤ E.block + E.len) :
    get_exact_blk_mapping t b =
      some (Ext4RealBlkId_add_rel E.start_blk (b - E.block)) := by
  obtain ⟨⟨k, hk⟩, hkE⟩ := List.mem_iff_get.mp hE
  have hceq : extCmp t.extents b k = Ordering.eq := by
    rw [extCmp_eq_iff t.extents b k hk, hkE]
    exact (contains_iff E b (hbound E hE)).mpr ⟨hlo, hhi⟩
  have hsearch : binary_search_by (extCmp t.extents b) t.extents.length =
      some k :=
    binary_search_finds _ _ k (extCmp_mono t.extents b hbound hpair) hk hceq
      (fun i hi hci => extCmp_eq_unique t.extents b hbound hpair i k hi hk
        hci hceq)
  simp only [get_exact_blk_mapping, hsearch, List.get?_eq_get hk, hkE]

/-- `start_blk` of a well-formed extent fits in 48 bits. -/
theorem start_blk_lt (e : Extent) (hwf : e.wf) : e.start_blk < 2 ^ 48 := by
  obtain ⟨-, -, hhi, hlo⟩ := hwf
  have h1 : e.start_lo < 2 ^ 48 := lt_trans hlo (by norm_num)
  have h2 : e.start_hi <<< 32 < 2 ^ 48 := by
    rw [Nat.shiftLeft_eq]
    calc e.start_hi * 2 ^ 32 ≤ (2 ^ 16 - 1) * 2 ^ 32 :=
          Nat.mul_le_mul_right _ (by omega)
      _ < 2 ^ 48 := by norm_num
  exact Nat.or_lt_two_pow h1 h2

/-- Variant of `lookup_covered` with the `u64` wrap-around discharged: for
well-formed extents the computed address fits in 64 bits. -/
theorem lookup_covered_val (t : ExtentTree) (E : Extent) (b : Nat)
    (hwf : ∀ e ∈ t.extents, e.wf)
    (hbound : ∀ e ∈ t.extents, e.block + e.len < 2 ^ 32)
    (hpair : t.extents.Pairwise (fun a a' => a.block + a.len < a'.block))
    (hE : E ∈ t.extents) (hlo : E.block ≤ b) (hhi : b ≤ E.block + E.len) :
    get_exact_blk_mapping t b = some (E.start_blk + (b - E.block)) := by
  rw [lookup_covered t E b hbound hpair hE hlo hhi]
  have hs := start_blk_lt E (hwf E hE)
  have hoff : b - E.block ≤ E.len := by omega
  have hlen : E.len < 2 ^ 16 := (hwf E hE).2.1
  have : E.start_blk + (b - E.block) < 2 ^ 64 := by
    have h48 : (2 : Nat) ^ 48 + 2 ^ 16 < 2 ^ 64 := by norm_num
    omega
  rw [Ext4RealBlkId_add_rel, Nat.mod_eq_of_lt this]

/-- When no extent `contains` the looked-up block, the comparator never
answers `Equal`, so the binary search misses and the lookup returns `none`
— regardless of whether the extent list is sorted. -/
theorem lookup_miss (t : ExtentTree) (b : Nat)
    (h : ∀ e ∈ t.extents, e.contains b = false) :
    get_exact_blk_mapping t b = none := by
  rw [get_exact_blk_mapping]
  cases hs : binary_search_by (extCmp t.extents b) t.extents.length with
  | none => rfl
  | some i =>
    exfalso
    have hsnd := binarySearchGo_sound _ _ _ _ _ hs
    have hi : i < t.extents.length := hsnd.2.2
    have hc := (extCmp_eq_iff t.extents b i hi).mp hsnd.1
    have hf := h _ (t.extents.get_mem i hi)
    rw [hc] at hf
    cases hf

/-! ## Lemmas about CRC32C and byte encodings -/

theorem crc32cRound_lt (x : Nat) (h : x < 2 ^ 32) : crc32cRound x < 2 ^ 32 := by
  rw [crc32cRound]
  split
  · exact Nat.xor_lt_two_pow (by omega) (by norm_num)
  · omega

theorem foldl_crc32cRound_lt (l : List Nat) :
    ∀ x, x < 2 ^ 32 → l.foldl (fun c _ => crc32cRound c) x < 2 ^ 32 := by
  induction l with
  | nil => intro x hx; simpa using hx
  | cons a l ih =>
    intro x hx
    simpa using ih (crc32cRound x) (crc32cRound_lt x hx)

theorem crc32cByte_lt (crc b : Nat) (h : crc < 2 ^ 32) :
    crc32cByte crc b < 2 ^ 32 := by
  rw [crc32cByte]
  refine foldl_crc32cRound_lt _ _ (Nat.xor_lt_two_pow h ?_)
  have := Nat.mod_lt b (y := 256) (by norm_num)
  omega

theorem crc32c_calc_lt (data : List Nat) : crc32c_calc data < 2 ^ 32 := by
  rw [crc32c_calc]
  have : data.foldl crc32cByte 0xFFFFFFFF < 2 ^ 32 := by
    generalize hinit : (0xFFFFFFFF : Nat) = a
    have ha : a < 2 ^ 32 := by omega
    clear hinit
    induction data generalizing a with
    | nil => simpa using ha
    | cons x l ih => simpa using ih (crc32cByte a x) (crc32cByte_lt a x ha)
  exact Nat.xor_lt_two_pow this (by norm_num)

theorem toLE4_wf (x : Nat) : BytesWF (toLE4 x) := by
  intro b hb
  simp [toLE4] at hb
  rcases hb with h | h | h | h <;> omega

theorem parseU32_toLE4 (x : Nat) (h : x < 2 ^ 32) :
    parseU32 (toLE4 x) 0 = x := by
  simp [parseU32, toLE4]
  omega

theorem toLE4_parseU32 (l : List Nat) (h4 : l.length = 4) (hwf : BytesWF l) :
    toLE4 (parseU32 l 0) = l := by
  rcases l with - | ⟨a, - | ⟨b, - | ⟨c, - | ⟨d, - | ⟨e, l⟩⟩⟩⟩⟩ <;>
    simp at h4
  have ha := hwf a (by simp)
  have hb := hwf b (by simp)
  have hc := hwf c (by simp)
  have hd := hwf d (by simp)
  simp [parseU32, toLE4]
  refine ⟨by omega, by omega, by omega, by omega⟩

/-! ## Sortedness of the loaded tree -/

theorem load_extents_sorted (fs : Ext4Fs) (inode : Inode) (fuel : Nat)
    (t : ExtentTree) (h : load_extent_tree fs inode fuel = some t) :
    t.extents.Sorted extLe := by
  rw [load_extent_tree] at h
  split at h
  · cases h
  · cases h
    exact List.sorted_insertionSort extLe _

/-! ## Claim C1 — uninitialized extents and the "zero block" sentinel -/

/-- C1 counterexample: the claim says lookup inside an uninitialized
extent (raw length field in `32769..=65535`) returns a sentinel "zero
block" rather than a physical block address.  On two loaded trees that are
identical except for the extent's physical start (2000 vs 3000), lookup of
logical block 0 returns 2000 resp. 3000 — the extent's physical address,
not any fixed sentinel; `get_exact_blk_mapping` never consults
`is_initialized`. -/
theorem C1_counterexample :
    Ext4ExtentLength_is_init 32772 = false ∧
    load_extent_tree fsC1 inodeC1a 10 = some ⟨[⟨0, 32772, 0, 2000⟩]⟩ ∧
    get_exact_blk_mapping ⟨[⟨0, 32772, 0, 2000⟩]⟩ 0 = some 2000 ∧
    load_extent_tree fsC1 inodeC1b 10 = some ⟨[⟨0, 32772, 0, 3000⟩]⟩ ∧
    get_exact_blk_mapping ⟨[⟨0, 32772, 0, 3000⟩]⟩ 0 = some 3000 := by
  decide

/-- C1 (amended): lookup gives uninitialized extents no special treatment —
for a loaded tree satisfying the spec's separation invariant, an
uninitialized leaf extent E (raw length field above 32768) and a logical
block in E's inclusive raw covered range, lookup returns
`Some(physical_start + (b − first_logical_block))`, exactly as for an
initialized extent; no zero-block sentinel exists. -/
theorem C1_amended_uninit_lookup (fs : Ext4Fs) (inode : Inode) (fuel : Nat)
    (t : ExtentTree) (hload : load_extent_tree fs inode fuel = some t)
    (hwf : ∀ e ∈ t.extents, e.wf)
    (hbound : ∀ e ∈ t.extents, e.block + e.len < 2 ^ 32)
    (hpair : t.extents.Pairwise (fun a a' => a.block + a.len < a'.block))
    (E : Extent) (hE : E ∈ t.extents)
    (hun : Ext4ExtentLength_is_init E.len = false)
    (b : Nat) (hlo : E.block ≤ b) (hhi : b ≤ E.block + E.len) :
    get_exact_blk_mapping t b = some (E.start_blk + (b - E.block)) :=
  lookup_covered_val t E b hwf hbound hpair hE hlo hhi

/-- C1 witness: the amended lookup applied to the loaded single-extent
uninitialized tree at logical block 3. -/
theorem C1_witness :
    Ext4ExtentLength_is_init 32772 = false ∧
    get_exact_blk_mapping ⟨[⟨0, 32772, 0, 2000⟩]⟩ 3 = some 2003 := by
  refine ⟨by decide, ?_⟩
  have h := C1_amended_uninit_lookup fsC1 inodeC1a 10 ⟨[⟨0, 32772, 0, 2000⟩]⟩
    (by decide) (by decide) (by decide) (by decide) ⟨0, 32772, 0, 2000⟩
    (by decide) (by decide) 3 (by decide) (by decide)
  exact h.trans (by decide)

/-! ## Claim C2 — failed child reads during loading -/

/-- C2: the claim (and spec §4.1) says a child read failing at the
BlockDevice layer makes the load report a corruption error and discard the
partially built extent list.  The code contradicts this: on a disk where
the inline interior node references child blocks 5000 (readable, one
extent `[0,4]→10000`) and 5001 (read fails), `traverse_extent_layer`
reports the failure (its `Option` result, modelled by the boolean, is
`false`/`None`), but `load_extent_tree` ignores that result and returns a
tree containing the partial extent list. -/
theorem C2_failing_read_partial_tree :
    fsC2.disk 5001 = none ∧
    (get_header inodeC2.i_block).entries = 2 ∧
    (traverse_extent_layer fsC2 inodeC2 10 inodeC2.i_block []).2 = false ∧
    load_extent_tree fsC2 inodeC2 10 = some ⟨[⟨0, 4, 0, 10000⟩]⟩ := by
  decide

/-! ## Claim C3 — lookup on covered ranges of initialized extents -/

/-- C3 counterexample: the claim quantifies over every loaded extent tree,
but loading performs no overlap check, so a disk image carrying two
extents for the same logical range loads successfully.  With extents
`[0,2]→100` and `[0,2]→200` both loaded, lookup of block 0 returns
`some 200`, not `some (100 + 0)` as the claim demands for the first
extent. -/
theorem C3_counterexample :
    load_extent_tree fsC3 inodeC3 10 =
      some ⟨[⟨0, 2, 0, 100⟩, ⟨0, 2, 0, 200⟩]⟩ ∧
    (⟨0, 2, 0, 100⟩ : Extent) ∈
      ([⟨0, 2, 0, 100⟩, ⟨0, 2, 0, 200⟩] : List Extent) ∧
    Ext4ExtentLength_is_init 2 = true ∧
    get_exact_blk_mapping ⟨[⟨0, 2, 0, 100⟩, ⟨0, 2, 0, 200⟩]⟩ 0 = some 200 ∧
    some 200 ≠ some ((⟨0, 2, 0, 100⟩ : Extent).start_blk + (0 - 0)) := by
  decide

/-- C3 (amended): restricted to loaded trees satisfying the spec's §3
invariants (extents pairwise separated — each extent's inclusive end below
the next extent's start — and `first + raw length < 2^32`, fields in their
machine ranges), lookup of any block `b` with
`first ≤ b < first + length` inside an initialized leaf extent E returns
`Some(E.physical_start + (b − E.first_logical_block))`. -/
theorem C3_amended_lookup_hit (fs : Ext4Fs) (inode : Inode) (fuel : Nat)
    (t : ExtentTree) (hload : load_extent_tree fs inode fuel = some t)
    (hwf : ∀ e ∈ t.extents, e.wf)
    (hbound : ∀ e ∈ t.extents, e.block + e.len < 2 ^ 32)
    (hpair : t.extents.Pairwise (fun a a' => a.block + a.len < a'.block))
    (E : Extent) (hE : E ∈ t.extents)
    (hinit : Ext4ExtentLength_is_init E.len = true)
    (b : Nat) (hlo : E.block ≤ b) (hhi : b < E.block + E.len) :
    get_exact_blk_mapping t b = some (E.start_blk + (b - E.block)) :=
  lookup_covered_val t E b hwf hbound hpair hE hlo (by omega)

/-- C3 witness: the amended lookup applied to a loaded two-extent
disjoint tree at logical block 5 (inside the second extent). -/
theorem C3_witness :
    load_extent_tree fsC3w inodeC3w 10 =
      some ⟨[⟨0, 2, 0, 100⟩, ⟨4, 2, 0, 200⟩]⟩ ∧
    get_exact_blk_mapping ⟨[⟨0, 2, 0, 100⟩, ⟨4, 2, 0, 200⟩]⟩ 5 = some 201 := by
  refine ⟨by decide, ?_⟩
  have h := C3_amended_lookup_hit fsC3w inodeC3w 10
    ⟨[⟨0, 2, 0, 100⟩, ⟨4, 2, 0, 200⟩]⟩ (by decide) (by decide) (by decide)
    (by decide) ⟨4, 2, 0, 200⟩ (by decide) (by decide) 5 (by decide)
    (by decide)
  exact h.trans (by decide)

/-! ## Claim C4 — lookup off covered ranges -/

/-- C4 counterexample: the claim says lookup returns `None` for every
block not covered by any leaf extent.  A loaded uninitialized extent with
raw length field 32772 covers (per the spec) effective logical range
`[0,4)`, yet lookup of block 5 returns `some 2005`: `Extent::contains`
uses the raw length field and an inclusive upper bound, so blocks far past
the effective range still hit. -/
theorem C4_counterexample :
    load_extent_tree fsC4 inodeC4 10 = some ⟨[⟨0, 32772, 0, 2000⟩]⟩ ∧
    Ext4ExtentLength_length 32772 = 4 ∧
    get_exact_blk_mapping ⟨[⟨0, 32772, 0, 2000⟩]⟩ 5 = some 2005 := by
  decide

/-- C4 (amended): for every logical block that no extent `contains` in
the code's sense (inclusive upper bound, raw length field even for
uninitialized extents), the binary search never answers `Equal` and the
lookup returns `None`, with no sortedness assumption needed.  This
replaces the claim's "covered" (the effective half-open range) with the
code's containment notion; the counterexample shows a block past the
effective range still returning `Some`. -/
theorem C4_amended_lookup_miss (fs : Ext4Fs) (inode : Inode) (fuel : Nat)
    (t : ExtentTree) (hload : load_extent_tree fs inode fuel = some t)
    (b : Nat) (h : ∀ e ∈ t.extents, e.contains b = false) :
    get_exact_blk_mapping t b = none :=
  lookup_miss t b h

/-- C4 witness: the amended miss theorem applied to a loaded single-extent
tree at logical block 7 (past the extent). -/
theorem C4_witness :
    load_extent_tree fsC4w inodeC4w 10 = some ⟨[⟨0, 2, 0, 100⟩]⟩ ∧
    get_exact_blk_mapping ⟨[⟨0, 2, 0, 100⟩]⟩ 7 = none :=
  ⟨by decide,
    C4_amended_lookup_miss fsC4w inodeC4w 10 ⟨[⟨0, 2, 0, 100⟩]⟩ (by decide) 7
      (by decide)⟩

/-! ## Claim C5 — header validation during loading -/

/-- C5 counterexample: the claim says no load succeeds when any header has
magic ≠ 0xF30A or depth > 5.  Loading an inline node whose magic is
`0x1234` succeeds and returns the extent: the loading path never inspects
the magic or depth fields (`ExtentBlock::get_header` performs no
validation, and the validating `ExtentHeader::load` is never called on
this path). -/
theorem C5_counterexample :
    (get_header inodeC5.i_block).magic = 0x1234 ∧
    load_extent_tree fsC5 inodeC5 10 = some ⟨[⟨0, 8, 0, 1000⟩]⟩ := by
  decide

/-- C5 (amended): the loading path performs no header validation — the
magic and depth fields are never rejected.  Once the feature gates pass,
loading a leaf inline node whose declared entry count fits its byte region
(the source's non-panicking precondition: an over-declaring header makes
the entry slice go out of bounds and panic instead) succeeds whatever its
magic bytes say; a concrete interior chain declaring depth 7 (above the
spec's bound of 5) likewise loads with its extent visible.  The magic
check lives only in the helper `ExtentHeader::load` — never called on the
load path — which accepts exactly magic `0xF30A` and does not check
depth; the `depth ≤ 5` bound only in the writer-side `set_depth`. -/
theorem C5_amended_no_validation :
    (∀ (fs : Ext4Fs) (inode : Inode) (fuel : Nat),
      fs.feature_incompat_extents = true → inode.uses_extents = true →
      (get_header inode.i_block).is_leaf = true →
      12 + 12 * (get_header inode.i_block).entries ≤ inode.i_block.length →
      0 < fuel →
      (load_extent_tree fs inode fuel).isSome = true) ∧
    load_extent_tree fsC5d inodeC5d 10 = some ⟨[⟨0, 8, 0, 1000⟩]⟩ ∧
    (∀ h_bytes : List Nat,
      (ExtentHeader.load h_bytes).isSome = true ↔
        (get_header h_bytes).magic = 0xF30A) ∧
    (∀ d : Nat,
      (Ext4ExtentHeaderDepth_set_depth d).isSome = true ↔ d ≤ 5) := by
  refine ⟨?_, by decide, ?_, ?_⟩
  · intro fs inode fuel h1 h2 _ _ _
    rw [load_extent_tree]
    simp [h1, h2]
  · intro h_bytes
    rw [ExtentHeader.load]
    split <;> simp_all
  · intro d
    rw [Ext4ExtentHeaderDepth_set_depth]
    split <;> simp <;> omega

/-- C5 witness: the amended theorem applied to the bad-magic in-bounds
leaf image and to concrete header bytes. -/
theorem C5_witness :
    (load_extent_tree fsC5 inodeC5 10).isSome = true ∧
    ((ExtentHeader.load (headerBytes 0xF30A 1 4 0 0)).isSome = true ↔
      (get_header (headerBytes 0xF30A 1 4 0 0)).magic = 0xF30A) ∧
    ((Ext4ExtentHeaderDepth_set_depth 6).isSome = true ↔ 6 ≤ 5) :=
  ⟨C5_amended_no_validation.1 fsC5 inodeC5 10 (by decide) (by decide)
      (by decide) (by decide) (by decide),
    C5_amended_no_validation.2.2.1 (headerBytes 0xF30A 1 4 0 0),
    C5_amended_no_validation.2.2.2 6⟩

/-! ## Claim C6 — extent-block checksum validation -/

/-- C6: `validate_chksum` returns `true` exactly when the block's final 4
bytes are the little-endian CRC32C of
`fs_uuid ‖ inode_number (LE u32) ‖ inode_generation (LE u32) ‖ body`
(`body` = all block bytes except the last 4), and on mismatch it returns
`false` having emitted exactly one error log (and none on success). -/
theorem C6_validate_chksum_correct (blk uuid : List Nat) (id gen : Nat)
    (hlen : 4 ≤ blk.length) (hwf : BytesWF blk) :
    ((validate_chksum blk uuid id gen).1 = true ↔
      blk.drop (blk.length - 4) =
        toLE4 (crc32c_calc (uuid ++ toLE4 id ++ toLE4 gen ++
          blk.take (blk.length - 4)))) ∧
    ((validate_chksum blk uuid id gen).1 = false →
      (validate_chksum blk uuid id gen).2 = 1) ∧
    ((validate_chksum blk uuid id gen).1 = true →
      (validate_chksum blk uuid id gen).2 = 0) := by
  have htlen : (blk.drop (blk.length - 4)).length = 4 := by
    rw [List.length_drop]; omega
  have htwf : BytesWF (blk.drop (blk.length - 4)) := by
    intro b hb
    exact hwf b (List.mem_of_mem_drop hb)
  have hc := crc32c_calc_lt (uuid ++ toLE4 id ++ toLE4 gen ++
    blk.take (blk.length - 4))
  have key : crc32c_calc (uuid ++ toLE4 id ++ toLE4 gen ++
      blk.take (blk.length - 4)) = parseU32 (blk.drop (blk.length - 4)) 0 ↔
      blk.drop (blk.length - 4) =
        toLE4 (crc32c_calc (uuid ++ toLE4 id ++ toLE4 gen ++
          blk.take (blk.length - 4))) := by
    constructor
    · intro h
      rw [h, toLE4_parseU32 _ htlen htwf]
    · intro h
      rw [h, parseU32_toLE4 _ hc]
  rw [validate_chksum]
  split
  · next h =>
      exact ⟨⟨fun _ => key.mp h, fun _ => rfl⟩, fun hh => Bool.noConfusion hh,
        fun _ => rfl⟩
  · next h =>
      exact ⟨⟨fun hh => Bool.noConfusion hh, fun hh => absurd (key.mpr hh) h⟩,
        fun _ => rfl, fun hh => Bool.noConfusion hh⟩

/-- C6 witness: the checksum characterization applied to a concrete
5-byte block. -/
theorem C6_witness :
    4 ≤ blkC6.length ∧ BytesWF blkC6 ∧
    (((validate_chksum blkC6 uuidC6 12 3735928559).1 = true ↔
      blkC6.drop (blkC6.length - 4) =
        toLE4 (crc32c_calc (uuidC6 ++ toLE4 12 ++ toLE4 3735928559 ++
          blkC6.take (blkC6.length - 4)))) ∧
    ((validate_chksum blkC6 uuidC6 12 3735928559).1 = false →
      (validate_chksum blkC6 uuidC6 12 3735928559).2 = 1) ∧
    ((validate_chksum blkC6 uuidC6 12 3735928559).1 = true →
      (validate_chksum blkC6 uuidC6 12 3735928559).2 = 0)) :=
  ⟨by decide, by decide,
    C6_validate_chksum_correct blkC6 uuidC6 12 3735928559 (by decide)
      (by decide)⟩

/-! ## Claim C7 — loaded extent lists are sorted -/

/-- C7: every tree returned by `load_extent_tree` has its extent list
sorted in non-decreasing order of `first_logical_block` (the list is
sorted by the derived lexicographic order, whose first key is the first
logical block). -/
theorem C7_loaded_tree_sorted (fs : Ext4Fs) (inode : Inode) (fuel : Nat)
    (t : ExtentTree) (h : load_extent_tree fs inode fuel = some t) :
    t.extents.Pairwise (fun a a' => a.block ≤ a'.block) :=
  (load_extents_sorted fs inode fuel t h).imp
    (fun hab => by unfold extLe at hab; omega)

/-- C7 witness: loading an image whose extents are serialized out of order
returns them sorted by first logical block. -/
theorem C7_witness :
    load_extent_tree fsC7 inodeC7 10 =
      some ⟨[⟨0, 2, 0, 100⟩, ⟨4, 2, 0, 200⟩]⟩ ∧
    List.Pairwise (fun a a' => a.block ≤ a'.block)
      ([⟨0, 2, 0, 100⟩, ⟨4, 2, 0, 200⟩] : List Extent) :=
  ⟨by decide,
    C7_loaded_tree_sorted fsC7 inodeC7 10 ⟨[⟨0, 2, 0, 100⟩, ⟨4, 2, 0, 200⟩]⟩
      (by decide)⟩

/-! ## Claim C8 — MBR dispatch -/

theorem tableGet_linux (b : Nat) (l : List (Nat × PartitionType))
    (hl : ∀ p ∈ l, p.2 = PartitionType.LinuxNative → p.1 = 0x83)
    (h : tableGet b l = PartitionType.LinuxNative) : b = 0x83 := by
  induction l with
  | nil => exact PartitionType.noConfusion h
  | cons p rest ih =>
    obtain ⟨k, v⟩ := p
    rw [tableGet] at h
    split at h
    · next hbk => rw [hbk]; exact hl (k, v) (by simp) h
    · exact ih (fun q hq => hl q (List.mem_cons_of_mem _ hq)) h

theorem tableGet_notmem (b : Nat) (l : List (Nat × PartitionType))
    (h : ∀ p ∈ l, b ≠ p.1) : tableGet b l = PartitionType.UnknownPT := by
  induction l with
  | nil => rfl
  | cons p rest ih =>
    obtain ⟨k, v⟩ := p
    rw [tableGet, if_neg (h (k, v) (by simp))]
    exact ih (fun q hq => h q (List.mem_cons_of_mem _ hq))

theorem ptb_linux (b : Nat)
    (h : partition_type_of_byte b = PartitionType.LinuxNative) : b = 0x83 :=
  tableGet_linux b mbrTypeTable (by decide) h

theorem ptb_unknown (b : Nat) (h : b ∉ mbrKnownBytes) :
    partition_type_of_byte b = PartitionType.UnknownPT := by
  refine tableGet_notmem b mbrTypeTable (fun p hp hbp => h ?_)
  rw [hbp, mbrKnownBytes]
  exact List.mem_map_of_mem Prod.fst hp

/-- C8 counterexample: the claim says a non-`0x83` MBR entry is handled
non-fatally as "unsupported — skip".  An entry with type byte `0x01`
(DOSFat12) hits a `todo!()` arm: partition construction panics instead of
completing. -/
theorem C8_counterexample :
    from_metadata (fun _ _ => some true) (fun _ _ _ => some ()) 0 0
      (.mbr 0x01 2048) = FMOutcome.panicked := by
  decide

/-- C8 (amended): an MBR entry with type byte ≠ 0x83 never reaches
`Ext4Fs::identify` or `Ext4Fs::mount` (the outcome is independent of both
probes); but only type bytes 0x00 (Empty), 0xEE (GPT protective) and bytes
outside the recognized table are skipped non-fatally as `Unknown` — every
other recognized non-0x83 type byte lands on a `todo!()` arm and panics. -/
theorem C8_amended_dispatch (f g : Nat → Nat → Option Bool)
    (mf mg : Nat → Nat → Nat → Option Unit) (pid did tb lba : Nat)
    (hne : tb ≠ 0x83) :
    (from_metadata f mf pid did (.mbr tb lba) =
      from_metadata g mg pid did (.mbr tb lba)) ∧
    ((tb = 0x00 ∨ tb = 0xEE ∨ tb ∉ mbrKnownBytes) →
      from_metadata f mf pid did (.mbr tb lba) =
        FMOutcome.built PartFS.Unknown) ∧
    (tb ≠ 0x00 → tb ≠ 0xEE → tb ∈ mbrKnownBytes →
      from_metadata f mf pid did (.mbr tb lba) = FMOutcome.panicked) := by
  refine ⟨?_, ?_, ?_⟩
  · cases hptb : partition_type_of_byte tb
    case LinuxNative => exact absurd (ptb_linux tb hptb) hne
    all_goals simp [from_metadata, hptb]
  · rintro (rfl | rfl | hmem)
    · rfl
    · rfl
    · simp [from_metadata, ptb_unknown tb hmem]
  · intro h0 hEE hmem
    simp [mbrKnownBytes, mbrTypeTable] at hmem
    rcases hmem with rfl | rfl | rfl | rfl | rfl | rfl | rfl | rfl | rfl |
      rfl | rfl | rfl | rfl | rfl | rfl | rfl | rfl | rfl | rfl | rfl |
      rfl | rfl | rfl <;>
      first
        | rfl
        | exact absurd rfl h0
        | exact absurd rfl hne
        | exact absurd rfl hEE

/-- C8 witness: the amended dispatch applied to type bytes 0x00 (skipped),
0x05 (recognized, panics) and 0x42 (unrecognized, skipped). -/
theorem C8_witness :
    (from_metadata (fun _ _ => some true) (fun _ _ _ => some ()) 0 0
        (.mbr 0x05 2048) =
      from_metadata (fun _ _ => some false) (fun _ _ _ => none) 0 0
        (.mbr 0x05 2048)) ∧
    from_metadata (fun _ _ => some true) (fun _ _ _ => some ()) 0 0
      (.mbr 0x05 2048) = FMOutcome.panicked ∧
    from_metadata (fun _ _ => some true) (fun _ _ _ => some ()) 0 0
      (.mbr 0x00 2048) = FMOutcome.built PartFS.Unknown ∧
    from_metadata (fun _ _ => some true) (fun _ _ _ => some ()) 0 0
      (.mbr 0x42 2048) = FMOutcome.built PartFS.Unknown :=
  ⟨(C8_amended_dispatch (fun _ _ => some true) (fun _ _ => some false)
      (fun _ _ _ => some ()) (fun _ _ _ => none) 0 0 0x05 2048
      (by decide)).1,
    (C8_amended_dispatch (fun _ _ => some true) (fun _ _ => some true)
      (fun _ _ _ => some ()) (fun _ _ _ => some ()) 0 0 0x05 2048
      (by decide)).2.2 (by decide) (by decide) (by decide),
    (C8_amended_dispatch (fun _ _ => some true) (fun _ _ => some true)
      (fun _ _ _ => some ()) (fun _ _ _ => some ()) 0 0 0x00 2048
      (by decide)).2.1 (Or.inl rfl),
    (C8_amended_dispatch (fun _ _ => some true) (fun _ _ => some true)
      (fun _ _ _ => some ()) (fun _ _ _ => some ()) 0 0 0x42 2048
      (by decide)).2.1 (Or.inr (Or.inr (by decide)))⟩

/-! ## Claim C9 — arithmetic on `Ext4RealBlkId` -/

/-- C9 counterexample: the claim says every addition the type supports
saturates.  The `Ext4ExtentLength` and `Ext4InodeRelBlkId` additions use
plain `u64` addition: at `u64::MAX + 1` they wrap to 0 where saturation
would give `u64::MAX`. -/
theorem C9_counterexample :
    Ext4RealBlkId_add_extent_len (2 ^ 64 - 1) 1 = 0 ∧
    Ext4RealBlkId_add_rel (2 ^ 64 - 1) 1 = 0 ∧
    u64_saturating_add (2 ^ 64 - 1) 1 = 2 ^ 64 - 1 ∧
    (0 : Nat) ≠ 2 ^ 64 - 1 := by
  refine ⟨?_, ?_, ?_, by norm_num⟩ <;> decide

/-- C9 (amended): of the four `Add` impls on `Ext4RealBlkId`, the
`Ext4BlkCount` and `u64` additions saturate at `u64::MAX`, while the
`Ext4ExtentLength` and `Ext4InodeRelBlkId` additions are plain `u64`
additions that wrap modulo `2^64`. -/
theorem C9_amended_add_semantics (a b : Nat) (ha : a < 2 ^ 64)
    (hb : b < 2 ^ 64) :
    Ext4RealBlkId_add_blk_count a b = min (a + b) (2 ^ 64 - 1) ∧
    Ext4RealBlkId_add_u64 a b = min (a + b) (2 ^ 64 - 1) ∧
    Ext4RealBlkId_add_extent_len a b =
      (if a + b < 2 ^ 64 then a + b else a + b - 2 ^ 64) ∧
    Ext4RealBlkId_add_rel a b =
      (if a + b < 2 ^ 64 then a + b else a + b - 2 ^ 64) := by
  have hp : (2 : Nat) ^ 64 = 18446744073709551616 := by norm_num
  rw [Ext4RealBlkId_add_blk_count, Ext4RealBlkId_add_u64,
    Ext4RealBlkId_add_extent_len, Ext4RealBlkId_add_rel,
    u64_saturating_add, hp] at *
  refine ⟨?_, ?_, ?_, ?_⟩ <;> split_ifs <;> omega

/-- C9 witness: the amended addition semantics at `u64::MAX` and 1. -/
theorem C9_witness :
    (2 ^ 64 - 1 : Nat) < 2 ^ 64 ∧ (1 : Nat) < 2 ^ 64 ∧
    (Ext4RealBlkId_add_blk_count (2 ^ 64 - 1) 1 =
      min (2 ^ 64 - 1 + 1) (2 ^ 64 - 1) ∧
    Ext4RealBlkId_add_u64 (2 ^ 64 - 1) 1 =
      min (2 ^ 64 - 1 + 1) (2 ^ 64 - 1) ∧
    Ext4RealBlkId_add_extent_len (2 ^ 64 - 1) 1 =
      (if (2 ^ 64 - 1 + 1 : Nat) < 2 ^ 64 then 2 ^ 64 - 1 + 1
        else 2 ^ 64 - 1 + 1 - 2 ^ 64) ∧
    Ext4RealBlkId_add_rel (2 ^ 64 - 1) 1 =
      (if (2 ^ 64 - 1 + 1 : Nat) < 2 ^ 64 then 2 ^ 64 - 1 + 1
        else 2 ^ 64 - 1 + 1 - 2 ^ 64)) :=
  ⟨by norm_num, by norm_num,
    C9_amended_add_semantics (2 ^ 64 - 1) 1 (by norm_num) (by norm_num)⟩

/-! ## Claim C10 — `get_entry_bytes` bounds guard -/

/-- C10: `get_entry_bytes` returns `None` whenever the entry index is at
or above the header's entry count, and for an in-range index (on a block
long enough to hold its declared entries) it returns exactly the 12-byte
record at offset `size_of::<ExtentHeader>() + 12·entry = 12 + 12·entry`. -/
theorem C10_get_entry_bytes_guard (blk : List Nat) (entry : Nat)
    (hlen : 12 + 12 * (get_header blk).entries ≤ blk.length) :
    ((get_header blk).entries ≤ entry → get_entry_bytes blk entry = none) ∧
    (entry < (get_header blk).entries →
      get_entry_bytes blk entry =
        some ((blk.drop (12 + 12 * entry)).take 12) ∧
      ((blk.drop (12 + 12 * entry)).take 12).length = 12) := by
  constructor
  · intro h
    rw [get_entry_bytes, if_pos h]
  · intro h
    refine ⟨by rw [get_entry_bytes, if_neg (by omega)], ?_⟩
    rw [List.length_take, List.length_drop]
    omega

/-- C10 witness: the guard theorem applied to a one-entry leaf block at
indices 1 (out of range) and 0 (in range). -/
theorem C10_witness :
    12 + 12 * (get_header blkC10).entries ≤ blkC10.length ∧
    get_entry_bytes blkC10 1 = none ∧
    get_entry_bytes blkC10 0 = some ((blkC10.drop (12 + 12 * 0)).take 12) :=
  ⟨by decide,
    (C10_get_entry_bytes_guard blkC10 1 (by decide)).1 (by decide),
    ((C10_get_entry_bytes_guard blkC10 0 (by decide)).2 (by decide)).1⟩

end FrozenBoot
